import Mathlib

/-!
Verification development for the PlateShapez dataset-synthesis pipeline.

The Python sources are shallowly embedded: images become a structure of
dimensions plus a pixel function, NumPy slice arithmetic becomes explicit
integer clipping, library random draws become oracle parameters, and code
that can raise becomes `Option`/`Except`-valued definitions.
-/

namespace Plate

/-! ## Image model

A PIL image: width, height, and a pixel function giving the integer value of
channel `c` at column `x`, row `y`.  Well-formed images keep every channel
value in `[0, 255]`. -/

structure PImg where
  w : ℕ
  h : ℕ
  pix : ℕ → ℕ → ℕ → ℕ

/-- `np.clip(v, 0, 255)` followed by the cast back to `uint8`. -/
def clipByte (v : ℤ) : ℕ := (max 0 (min v 255)).toNat

/-! ## Python slice arithmetic

NumPy basic slicing `arr[a : b]` on an axis of length `n` resolves a negative
bound by adding `n` and then clamps into `[0, n]`; the selected index range is
`[start, stop)`. -/

/-- Resolved inclusive start index of the Python slice `a :` on axis length `n`. -/
def pySliceStart (n : ℕ) (a : ℤ) : ℕ :=
  if a < 0 then (max ((n : ℤ) + a) 0).toNat else min a.toNat n

/-- Resolved exclusive stop index of the Python slice `: b` on axis length `n`. -/
def pySliceStop (n : ℕ) (b : ℤ) : ℕ :=
  if b < 0 then (max ((n : ℤ) + b) 0).toNat else min b.toNat n

/-- Python's `str.strip()` on the character list: drop leading and trailing
whitespace. -/
def stripChars (l : List Char) : List Char :=
  ((l.dropWhile Char.isWhitespace).reverse.dropWhile Char.isWhitespace).reverse

/-- Python's `str.strip()`. -/
def pyStrip (s : String) : String := ⟨stripChars s.data⟩

/-- A perturbation class: its declared `name` attribute and an
identifier distinguishing distinct implementations. -/
structure PertClass where
  name : String
  implId : ℕ
deriving DecidableEq

/-- Registry lookup (`name in PERTURBATION_REGISTRY` / `PERTURBATION_REGISTRY[name]`). -/
def lookupReg (reg : List (String × PertClass)) (n : String) : Option PertClass :=
  match reg with
  | [] => none
  | (k, c) :: rest => if k = n then some c else lookupReg rest n

/-- `register(perturbation_cls)` from perturbations/base.py: strip the class
name, reject an empty name, reject a name already present, otherwise insert. -/
def registerPert (reg : List (String × PertClass)) (c : PertClass) :
    Except String (List (String × PertClass)) :=
  let n := pyStrip c.name
  if n = "" then
    Except.error "Perturbation class must define a non-empty name."
  else
    match lookupReg reg n with
    | some _ => Except.error ("Duplicate perturbation name: " ++ n)
    | none => Except.ok (reg ++ [(n, c)])

/-- The registry state after an attempted registration: a raised error leaves
the mapping untouched, a successful insert replaces it. -/
def registryAfter (reg : List (String × PertClass)) (c : PertClass) :
    List (String × PertClass) :=
  match registerPert reg c with
  | Except.ok r => r
  | Except.error _ => reg

/-! ## Perturbation instances and descriptors (perturbations/base.py)

`Perturbation.__init__` stores its keyword arguments verbatim in
`self.params`; `serialize` returns `{"type": self.name, "params": self.params}`. -/

/-- A parameter value as passed in a perturbation's keyword arguments. -/
inductive PVal where
  | int : ℤ → PVal
  | num : ℚ → PVal
  | str : String → PVal
deriving DecidableEq

/-- A live perturbation instance: class name plus stored constructor kwargs. -/
structure PertInstance where
  name : String
  params : List (String × PVal)
deriving DecidableEq

/-- `Perturbation.__init__(**kwargs)`: the kwargs are stored verbatim. -/
def mkPert (n : String) (kwargs : List (String × PVal)) : PertInstance :=
  { name := n, params := kwargs }

/-- `Perturbation.serialize()`: the descriptor `{"type": name, "params": params}`. -/
def serializeP (p : PertInstance) : String × List (String × PVal) :=
  (p.name, p.params)

/-! ## Noise perturbation (perturbations/noise.py)

`np.random.randint(-intensity, intensity, shape)` requires `low < high`; the
draw is modelled by an oracle `ν` giving the sampled value per pixel and
channel.  With `intensity = 0` the call raises, which the embedding returns
as `none`. -/

/-- Constructor parameters of `NoisePerturbation`, with the defaults read by
`params.get` in `apply`. -/
structure NoiseParams where
  intensity : ℤ := 15
  scope : String := "region"

/-- `NoisePerturbation.apply`: add per-channel integer noise, clipped to
`[0,255]`, over the whole image or only over the NumPy-sliced region.
`none` models the `ValueError` raised by `randint` when `-intensity ≥ intensity`. -/
def noiseApply (p : NoiseParams) (ν : ℕ → ℕ → ℕ → ℤ) (img : PImg)
    (region : ℤ × ℤ × ℤ × ℤ) : Option PImg :=
  if -p.intensity < p.intensity then
    if p.scope = "global" then
      some ⟨img.w, img.h, fun x y c => clipByte ((img.pix x y c : ℤ) + ν x y c)⟩
    else
      let (x, y, w, hh) := region
      let r0 := pySliceStart img.h y
      let r1 := pySliceStop img.h (y + hh)
      let c0 := pySliceStart img.w x
      let c1 := pySliceStop img.w (x + w)
      some ⟨img.w, img.h, fun px py c =>
        if r0 ≤ py ∧ py < r1 ∧ c0 ≤ px ∧ px < c1 then
          clipByte ((img.pix px py c : ℤ) + ν px py c)
        else img.pix px py c⟩
  else none

/-! ## Warp perturbation (perturbations/warp.py)

`WarpPerturbation.apply` builds meshgrid coordinate arrays, adds the
sinusoidal displacements *in place* (`dx` is overwritten before `dy` reads
it), clips both maps, and resamples with `cv2.remap(..., INTER_LINEAR)`.
Floating point is idealised as `ℝ`. -/

/-- Constructor parameters of `WarpPerturbation`, with the defaults read by
`params.get` in `apply`. -/
structure WarpParams where
  intensity : ℝ := 5
  frequency : ℝ := 20
  scope : String := "region"

/-- `np.clip(v, lo, hi)` over the reals. -/
def clipR (lo hi v : ℝ) : ℝ := max lo (min v hi)

/-- The horizontal source map before clipping:
`dx = dx + np.sin(dy / frequency) * intensity` at meshgrid point `(px, py)`. -/
noncomputable def warpSrcX (f I : ℝ) (px py : ℕ) : ℝ :=
  px + Real.sin (py / f) * I

/-- The vertical source map before clipping:
`dy = dy + np.cos(dx / frequency) * intensity`, where `dx` has already been
displaced by the previous statement. -/
noncomputable def warpSrcY (f I : ℝ) (px py : ℕ) : ℝ :=
  py + Real.cos (warpSrcX f I px py / f) * I

/-- The clipped horizontal source map `np.clip(dx, 0, W - 1)`. -/
noncomputable def warpMapX (W : ℕ) (f I : ℝ) (px py : ℕ) : ℝ :=
  clipR 0 ((W : ℝ) - 1) (warpSrcX f I px py)

/-- The clipped vertical source map `np.clip(dy, 0, H - 1)`. -/
noncomputable def warpMapY (H : ℕ) (f I : ℝ) (px py : ℕ) : ℝ :=
  clipR 0 ((H : ℝ) - 1) (warpSrcY f I px py)

/-- The vertical source map that §4.4 of the spec describes: displacement
`cos(px / frequency) * intensity`, a function of the original `px` only. -/
noncomputable def specWarpSrcY (f I : ℝ) (px py : ℕ) : ℝ :=
  py + Real.cos (px / f) * I

/-- Bilinear interpolation of channel `c` of `img` at real source coordinates
`(sx, sy)`, as `cv2.remap(..., INTER_LINEAR)` computes it for in-range
coordinates (the neighbour index is kept inside the array; its weight is zero
whenever clamping it mattered for a map already clipped to `[0, dim - 1]`). -/
noncomputable def bilinear (img : PImg) (sx sy : ℝ) (c : ℕ) : ℝ :=
  (1 - (sx - ⌊sx⌋₊)) * (1 - (sy - ⌊sy⌋₊)) * (img.pix ⌊sx⌋₊ ⌊sy⌋₊ c : ℝ) +
    (sx - ⌊sx⌋₊) * (1 - (sy - ⌊sy⌋₊)) *
      (img.pix (min (⌊sx⌋₊ + 1) (img.w - 1)) ⌊sy⌋₊ c : ℝ) +
    (1 - (sx - ⌊sx⌋₊)) * (sy - ⌊sy⌋₊) *
      (img.pix ⌊sx⌋₊ (min (⌊sy⌋₊ + 1) (img.h - 1)) c : ℝ) +
    (sx - ⌊sx⌋₊) * (sy - ⌊sy⌋₊) *
      (img.pix (min (⌊sx⌋₊ + 1) (img.w - 1)) (min (⌊sy⌋₊ + 1) (img.h - 1)) c : ℝ)

/-- Rounding of an interpolated value back to a `uint8` sample. -/
noncomputable def roundByte (v : ℝ) : ℕ := ⌊v + 1 / 2⌋₊

/-- The contiguous sub-image `arr[y : y + h, x : x + w]` (a NumPy slice copy),
given the resolved nonnegative slice origin and extents. -/
def subImg (img : PImg) (rx ry w h : ℕ) : PImg :=
  ⟨w, h, fun x y c => img.pix (rx + x) (ry + y) c⟩

/-- The global branch of `WarpPerturbation.apply`: remap the whole image with
the clipped displacement maps. -/
noncomputable def warpGlobal (p : WarpParams) (img : PImg) : PImg :=
  ⟨img.w, img.h, fun px py c =>
    roundByte (bilinear img (warpMapX img.w p.frequency p.intensity px py)
      (warpMapY img.h p.frequency p.intensity px py) c)⟩

/-- The region branch of `WarpPerturbation.apply`: copy the NumPy slice
`arr[y : y + h, x : x + w]`, remap it with maps built from the *requested*
region extents, and assign the result back into the slice.  `none` models the
broadcast `ValueError` NumPy raises when the resolved slice shape differs
from the requested `(h, w)` map shape. -/
noncomputable def warpRegion (p : WarpParams) (img : PImg) (x y w hh : ℤ) : Option PImg :=
  let r0 := pySliceStart img.h y
  let r1 := pySliceStop img.h (y + hh)
  let c0 := pySliceStart img.w x
  let c1 := pySliceStop img.w (x + w)
  if r1 - r0 = hh.toNat ∧ c1 - c0 = w.toNat then
    some ⟨img.w, img.h, fun px py c =>
      if c0 ≤ px ∧ px < c1 ∧ r0 ≤ py ∧ py < r1 then
        roundByte (bilinear (subImg img c0 r0 (c1 - c0) (r1 - r0))
          (warpMapX w.toNat p.frequency p.intensity (px - c0) (py - r0))
          (warpMapY hh.toNat p.frequency p.intensity (px - c0) (py - r0)) c)
      else img.pix px py c⟩
  else none

/-- `WarpPerturbation.apply`: dispatch on `scope`. -/
noncomputable def warpApply (p : WarpParams) (img : PImg) (region : ℤ × ℤ × ℤ × ℤ) :
    Option PImg :=
  let (x, y, w, hh) := region
  if p.scope = "global" then some (warpGlobal p img)
  else warpRegion p img x y w hh

/-! ## Shapes perturbation (perturbations/shapes.py)

`random.randint(a, b)` draws from the inclusive range `[a, b]` and raises for
an empty range; the stream of library random draws is modelled by an oracle
`ρ : ℕ → ℕ` consumed at successive indices, in the order the code draws. -/

/-- The `"RGBA"` draw-mode alpha blend PIL applies to drawn pixels:
source channel `s` at opacity `a` over destination channel `d`. -/
def blendByte (a s d : ℕ) : ℕ := (s * a + d * (255 - a)) / 255

/-- `calculate_center_position(background, overlay)`: integer floor division,
so an overlay larger than the background yields a negative offset. -/
def calcCenterPos (bg ov : PImg) : ℤ × ℤ :=
  (((bg.w : ℤ) - (ov.w : ℤ)).fdiv 2, ((bg.h : ℤ) - (ov.h : ℤ)).fdiv 2)

/-- The region `(bx, by, ow, oh)` that `DatasetGenerator.run` passes to every
perturbation for one background/overlay pair: the centered position plus the
overlay's own size, with no clipping. -/
def regionFor (bg ov : PImg) : ℤ × ℤ × ℤ × ℤ :=
  ((calcCenterPos bg ov).1, (calcCenterPos bg ov).2, (ov.w : ℤ), (ov.h : ℤ))

/-- `img.paste(overlay, position, overlay)`: alpha-composite the RGBA overlay
(channel 3 is its alpha) onto a copy of the background at the given offset;
PIL clips an overlay hanging beyond the borders. -/
def composite (bg ov : PImg) (px py : ℤ) : PImg :=
  ⟨bg.w, bg.h, fun x y c =>
    if 0 ≤ (x : ℤ) - px ∧ (x : ℤ) - px < (ov.w : ℤ) ∧
        0 ≤ (y : ℤ) - py ∧ (y : ℤ) - py < (ov.h : ℤ) then
      blendByte (ov.pix ((x : ℤ) - px).toNat ((y : ℤ) - py).toNat 3)
        (ov.pix ((x : ℤ) - px).toNat ((y : ℤ) - py).toNat c) (bg.pix x y c)
    else bg.pix x y c⟩

/-! ## Output naming (pipeline.py)

`fname = f"{bg_path.stem}_{ov_path.stem}_{i:03d}.png"`. -/

/-- Python's `str(n)` for a natural number, as characters. -/
def decRepr (n : ℕ) : List Char :=
  if n = 0 then ['0'] else ((Nat.digits 10 n).reverse.map Nat.digitChar)

/-- Python's `f"{n:03d}"`: zero-pad the decimal form to width 3. -/
def pad3 (n : ℕ) : List Char :=
  List.replicate (3 - (decRepr n).length) '0' ++ decRepr n

/-- The output filename for one `(background stem, overlay stem, variant)`
configuration. -/
def fnameFor (bgStem ovStem : String) (i : ℕ) : String :=
  bgStem ++ "_" ++ ovStem ++ "_" ++ ⟨pad3 i⟩ ++ ".png"

/-- The metadata filename: `fname.replace(".png", ".json")`.  Python's
`replace` substitutes every occurrence; this model replaces the final
extension, the only occurrence when the stems do not themselves contain
`".png"`. -/
def labelNameFor (bgStem ovStem : String) (i : ℕ) : String :=
  bgStem ++ "_" ++ ovStem ++ "_" ++ ⟨pad3 i⟩ ++ ".json"

/-- Decode a zero-padded decimal character block back to its value. -/
def unDigits (l : List Char) : ℕ :=
  Nat.ofDigits 10 (l.reverse.map (fun c => c.toNat - 48))

/-! ## Dataset generator (pipeline.py)

`run(n_variants)` is embedded as a pure function threading an explicit
pseudo-random state `st : ℕ` through the perturbation chain; perturbation
implementations are abstract state transformers looked up in a registry.
Raised exceptions become the `err` component; files written before an abort
are kept, matching the on-disk effect of an exception escaping `run`. -/

/-- One configured chain entry `{"name": ..., "params": ...}`. -/
structure PertConf where
  name : String
  params : List (String × PVal)

/-- A registered implementation: params, image, region and random state to
image and advanced state (the `apply` interface). -/
def PertImpl : Type :=
  List (String × PVal) → PImg → (ℤ × ℤ × ℤ × ℤ) → ℕ → PImg × ℕ

/-- Registry lookup for the pipeline (`PERTURBATION_REGISTRY[name]`). -/
def lookupImpl (reg : List (String × PertImpl)) (n : String) : Option PertImpl :=
  match reg with
  | [] => none
  | (k, f) :: rest => if k = n then some f else lookupImpl rest n

/-- The first chain entry whose name is not registered, if any. -/
def firstUnknown (reg : List (String × PertImpl)) : List PertConf → Option String
  | [] => none
  | conf :: rest =>
    match lookupImpl reg conf.name with
    | none => some conf.name
    | some _ => firstUnknown reg rest

/-- One generated metadata record (the `GenerationRecord`). -/
structure MetaRec where
  background : String
  overlay : String
  position : ℤ × ℤ
  size : ℕ × ℕ
  perts : List (String × List (String × PVal))
  random_seed : Option ℤ
  variant_index : ℕ

/-- Generator configuration: enumerated sources (stem and decoded image, in
enumeration order), the perturbation chain, seed, variant count and the
metadata toggle. -/
structure GenConfig where
  bgs : List (String × PImg)
  ovs : List (String × PImg)
  chain : List PertConf
  seed : Option ℤ
  nVariants : ℕ
  saveMeta : Bool

/-- Result of a run: written images, written metadata files, and the raised
error if the run aborted. -/
structure RunOut where
  files : List (String × PImg)
  labels : List (String × MetaRec)
  err : Option String

/-- The inner perturbation loop: check the registry, instantiate, apply, and
collect the serialized descriptors in order.  An unregistered name raises
`ValueError(f"Unknown perturbation: {name}")` before anything else happens
for that entry. -/
def applyChain (reg : List (String × PertImpl)) (chain : List PertConf)
    (img : PImg) (region : ℤ × ℤ × ℤ × ℤ) (st : ℕ) :
    Except String (PImg × List (String × List (String × PVal)) × ℕ) :=
  match chain with
  | [] => Except.ok (img, [], st)
  | conf :: rest =>
    match lookupImpl reg conf.name with
    | none => Except.error ("Unknown perturbation: " ++ conf.name)
    | some impl =>
      match applyChain reg rest (impl conf.params img region st).1 region
        (impl conf.params img region st).2 with
      | Except.error e => Except.error e
      | Except.ok (imgf, descs, stf) =>
        Except.ok (imgf, (conf.name, conf.params) :: descs, stf)

/-- The `for i in range(n_variants)` loop for one background/overlay pair:
`k` variants remain and `i` is the current index.  Each iteration composites
afresh, runs the chain, and emits the image (and the metadata record when
enabled). -/
def runPair (reg : List (String × PertImpl)) (chain : List PertConf)
    (bgStem ovStem : String) (bg ov : PImg) (seed : Option ℤ) (sm : Bool) :
    ℕ → ℕ → ℕ →
    List (String × PImg) × List (String × MetaRec) × ℕ × Option String
  | 0, _, st => ([], [], st, none)
  | Nat.succ k, i, st =>
    match applyChain reg chain
      (composite bg ov (calcCenterPos bg ov).1 (calcCenterPos bg ov).2)
      (regionFor bg ov) st with
    | Except.error e => ([], [], st, some e)
    | Except.ok (img', descs, st') =>
      match runPair reg chain bgStem ovStem bg ov seed sm k (i + 1) st' with
      | (fs, ls, stf, err) =>
        ((fnameFor bgStem ovStem i, img') :: fs,
          (if sm then
            (labelNameFor bgStem ovStem i,
              ⟨bgStem, ovStem, ((regionFor bg ov).1, (regionFor bg ov).2.1),
                (ov.w, ov.h), descs, seed, i⟩) :: ls
          else ls),
          stf, err)

/-- The overlay loop for one background. -/
def runOvs (reg : List (String × PertImpl)) (chain : List PertConf)
    (bgStem : String) (bg : PImg) (ovs : List (String × PImg))
    (seed : Option ℤ) (sm : Bool) (st n : ℕ) :
    List (String × PImg) × List (String × MetaRec) × ℕ × Option String :=
  match ovs with
  | [] => ([], [], st, none)
  | (ovStem, ov) :: rest =>
    match runPair reg chain bgStem ovStem bg ov seed sm n 0 st with
    | (fs, ls, st', some e) => (fs, ls, st', some e)
    | (fs, ls, st', none) =>
      match runOvs reg chain bgStem bg rest seed sm st' n with
      | (fs2, ls2, st2, err2) => (fs ++ fs2, ls ++ ls2, st2, err2)

/-- The background loop. -/
def runBgs (reg : List (String × PertImpl)) (chain : List PertConf)
    (bgs ovs : List (String × PImg)) (seed : Option ℤ) (sm : Bool) (st n : ℕ) :
    List (String × PImg) × List (String × MetaRec) × ℕ × Option String :=
  match bgs with
  | [] => ([], [], st, none)
  | (bgStem, bg) :: rest =>
    match runOvs reg chain bgStem bg ovs seed sm st n with
    | (fs, ls, st', some e) => (fs, ls, st', some e)
    | (fs, ls, st', none) =>
      match runBgs reg chain rest ovs seed sm st' n with
      | (fs2, ls2, st2, err2) => (fs ++ fs2, ls ++ ls2, st2, err2)

/-- The state of the global pseudo-random stream after `random.seed(s)` /
`np.random.seed(s)`. -/
def seedState (s : ℤ) : ℕ := s.natAbs

/-- `DatasetGenerator.run(n_variants)`: seed once if a seed was configured
(otherwise the ambient global state is used as-is), reject empty source sets,
then sweep backgrounds × overlays × variants. -/
def run (reg : List (String × PertImpl)) (cfg : GenConfig) (ambient : ℕ) : RunOut :=
  match runBgs reg cfg.chain cfg.bgs cfg.ovs cfg.seed cfg.saveMeta
    (match cfg.seed with | some s => seedState s | none => ambient) cfg.nVariants with
  | (fs, ls, _, err) =>
    if cfg.bgs.isEmpty then ⟨[], [], some "No background images found"⟩
    else if cfg.ovs.isEmpty then ⟨[], [], some "No overlay images found"⟩
    else ⟨fs, ls, err⟩

/-! ## Helper lemmas -/

theorem pySliceStart_of_in_bounds (n : ℕ) (a : ℤ) (h0 : 0 ≤ a) (h1 : a ≤ n) :
    pySliceStart n a = a.toNat := by
  unfold pySliceStart
  rw [if_neg (by omega)]
  omega

theorem pySliceStop_of_in_bounds (n : ℕ) (b : ℤ) (h0 : 0 ≤ b) (h1 : b ≤ n) :
    pySliceStop n b = b.toNat := by
  unfold pySliceStop
  rw [if_neg (by omega)]
  omega

/-- Claim C5: registering a perturbation class whose stripped name is already
present in the registry raises the duplicate-name error and leaves the
registry unchanged, so the first registration under that name remains the
resolvable implementation. -/
theorem register_duplicate_name_rejected (reg : List (String × PertClass))
    (c c₀ : PertClass) (hne : pyStrip c.name ≠ "")
    (h : lookupReg reg (pyStrip c.name) = some c₀) :
    registerPert reg c =
      Except.error ("Duplicate perturbation name: " ++ pyStrip c.name) ∧
    registryAfter reg c = reg ∧
    lookupReg (registryAfter reg c) (pyStrip c.name) = some c₀ := by
  have he : registerPert reg c =
      Except.error ("Duplicate perturbation name: " ++ pyStrip c.name) := by
    unfold registerPert
    rw [if_neg hne, h]
  refine ⟨he, ?_, ?_⟩ <;> simp [registryAfter, he, h]

/-- Witness for C5 on a concrete registry holding `noise`. -/
theorem register_duplicate_name_rejected_witness :
    registerPert [("noise", ⟨"noise", 0⟩)] ⟨"noise", 1⟩ =
      Except.error ("Duplicate perturbation name: " ++ pyStrip "noise") ∧
    registryAfter [("noise", ⟨"noise", 0⟩)] ⟨"noise", 1⟩ = [("noise", ⟨"noise", 0⟩)] ∧
    lookupReg (registryAfter [("noise", ⟨"noise", 0⟩)] ⟨"noise", 1⟩) (pyStrip "noise") =
      some ⟨"noise", 0⟩ :=
  register_duplicate_name_rejected _ _ _ (by decide) (by decide)

/-- Claim C9: `serialize()` returns a descriptor whose `params` equals exactly
the constructor kwargs, and re-instantiating from the descriptor reproduces
the instance (hence identical behaviour under the same seed state). -/
theorem serialize_params_exact (n : String) (kw : List (String × PVal))
    (p : PertInstance) :
    (serializeP (mkPert n kw)).2 = kw ∧
    mkPert (serializeP p).1 (serializeP p).2 = p :=
  ⟨rfl, rfl⟩

/-- Claim C10: noise with intensity 0 raises (the `randint` interval is empty)
for every image, region and scope, while every intensity ≥ 1 makes the draw
succeed. -/
theorem noise_intensity_zero_raises :
    (∀ (scope0 : String) (ν : ℕ → ℕ → ℕ → ℤ) (img : PImg) (region : ℤ × ℤ × ℤ × ℤ),
      noiseApply ⟨0, scope0⟩ ν img region = none) ∧
    (∀ (I : ℤ), 1 ≤ I →
      ∀ (scope0 : String) (ν : ℕ → ℕ → ℕ → ℤ) (img : PImg) (region : ℤ × ℤ × ℤ × ℤ),
      (noiseApply ⟨I, scope0⟩ ν img region).isSome) := by
  constructor
  · intro scope0 ν img region
    simp [noiseApply]
  · intro I hI scope0 ν img region
    obtain ⟨x, y, w, hh⟩ := region
    unfold noiseApply
    rw [if_pos (by simp; omega)]
    by_cases hs : scope0 = "global" <;> simp [hs]

/-- Witness for C10 at intensity 0 and 1 on a one-pixel image. -/
theorem noise_intensity_zero_raises_witness :
    noiseApply ⟨0, "region"⟩ (fun _ _ _ => 0) ⟨1, 1, fun _ _ _ => 0⟩ (0, 0, 1, 1) = none ∧
    (noiseApply ⟨1, "region"⟩ (fun _ _ _ => 0) ⟨1, 1, fun _ _ _ => 0⟩ (0, 0, 1, 1)).isSome :=
  ⟨noise_intensity_zero_raises.1 "region" _ _ _,
   noise_intensity_zero_raises.2 1 (by norm_num) "region" _ _ _⟩

/-- Counterexample for C3: at frequency `2 / π`, intensity `2`, destination
pixel `(0, 1)` on a height-10 image, the code's clipped vertical source
coordinate is `0`, while the spec's formula `py + cos(px / f) * I` gives `3`
after clipping: the vertical displacement reads the already-displaced `dx`,
not the original `px`. -/
theorem warp_vertical_map_spec_mismatch :
    warpMapY 10 (2 / Real.pi) 2 0 1 = 0 ∧
    clipR 0 ((10 : ℝ) - 1) (specWarpSrcY (2 / Real.pi) 2 0 1) = 3 ∧
    (0 : ℝ) ≠ 3 := by
  have hx : warpSrcX (2 / Real.pi) 2 0 1 = 2 := by
    unfold warpSrcX
    rw [show ((1 : ℕ) : ℝ) / (2 / Real.pi) = Real.pi / 2 by
      rw [Nat.cast_one, one_div_div]]
    rw [Real.sin_pi_div_two]
    norm_num
  have hy : warpSrcY (2 / Real.pi) 2 0 1 = -1 := by
    unfold warpSrcY
    rw [hx]
    rw [show (2 : ℝ) / (2 / Real.pi) = Real.pi by
      rw [div_div_eq_mul_div, mul_comm, mul_div_assoc]
      norm_num]
    rw [Real.cos_pi]
    push_cast
    norm_num
  refine ⟨?_, ?_, by norm_num⟩
  · unfold warpMapY clipR
    rw [hy]
    norm_num
  · unfold specWarpSrcY clipR
    norm_num [Real.cos_zero]

/-- Claim C3 (amended): in both scopes each destination pixel is resampled
with bilinear interpolation at source coordinates clamped to valid bounds,
where the horizontal displacement is `sin(py / f) * I` but the vertical
displacement is `cos(dx / f) * I` computed from the already-displaced
horizontal coordinate `dx = px + sin(py / f) * I`; with scope `"region"`
(over a region contained in the image) the maps range over the region's own
coordinates and bounds. -/
theorem warp_displaced_resampling (p : WarpParams) (img : PImg) (x y w hh : ℤ)
    (hx : 0 ≤ x) (hy : 0 ≤ y) (hw : 0 < w) (hh0 : 0 < hh)
    (hxw : x + w ≤ img.w) (hyh : y + hh ≤ img.h) :
    (∀ (W H : ℕ) (f I : ℝ) (px py : ℕ), 1 ≤ W → 1 ≤ H →
      warpMapX W f I px py =
        clipR 0 ((W : ℝ) - 1) ((px : ℝ) + Real.sin ((py : ℝ) / f) * I) ∧
      warpMapY H f I px py =
        clipR 0 ((H : ℝ) - 1)
          ((py : ℝ) + Real.cos (((px : ℝ) + Real.sin ((py : ℝ) / f) * I) / f) * I) ∧
      0 ≤ warpMapX W f I px py ∧ warpMapX W f I px py ≤ (W : ℝ) - 1 ∧
      0 ≤ warpMapY H f I px py ∧ warpMapY H f I px py ≤ (H : ℝ) - 1) ∧
    (p.scope = "global" →
      ∃ out, warpApply p img (x, y, w, hh) = some out ∧
        out.w = img.w ∧ out.h = img.h ∧
        ∀ (px py c : ℕ), out.pix px py c =
          roundByte (bilinear img (warpMapX img.w p.frequency p.intensity px py)
            (warpMapY img.h p.frequency p.intensity px py) c)) ∧
    (p.scope = "region" →
      ∃ out, warpApply p img (x, y, w, hh) = some out ∧
        out.w = img.w ∧ out.h = img.h ∧
        ∀ (px py c : ℕ),
          x.toNat ≤ px → px < (x + w).toNat → y.toNat ≤ py → py < (y + hh).toNat →
          out.pix px py c =
            roundByte (bilinear (subImg img x.toNat y.toNat w.toNat hh.toNat)
              (warpMapX w.toNat p.frequency p.intensity (px - x.toNat) (py - y.toNat))
              (warpMapY hh.toNat p.frequency p.intensity (px - x.toNat) (py - y.toNat))
              c)) := by
  refine ⟨?_, ?_, ?_⟩
  · intro W H f I px py hW hH
    have h1W : (0 : ℝ) ≤ (W : ℝ) - 1 := by
      have : (1 : ℝ) ≤ (W : ℝ) := by exact_mod_cast hW
      linarith
    have h1H : (0 : ℝ) ≤ (H : ℝ) - 1 := by
      have : (1 : ℝ) ≤ (H : ℝ) := by exact_mod_cast hH
      linarith
    refine ⟨rfl, rfl, ?_, ?_, ?_, ?_⟩
    · exact le_max_left 0 _
    · exact max_le h1W (min_le_right _ _)
    · exact le_max_left 0 _
    · exact max_le h1H (min_le_right _ _)
  · intro hs
    have happ : warpApply p img (x, y, w, hh) = some (warpGlobal p img) := by
      unfold warpApply
      exact if_pos hs
    exact ⟨warpGlobal p img, happ, rfl, rfl, fun px py c => rfl⟩
  · intro hs
    have hsg : p.scope ≠ "global" := by rw [hs]; decide
    have hr0 : pySliceStart img.h y = y.toNat :=
      pySliceStart_of_in_bounds _ _ hy (by omega)
    have hr1 : pySliceStop img.h (y + hh) = (y + hh).toNat :=
      pySliceStop_of_in_bounds _ _ (by omega) hyh
    have hc0 : pySliceStart img.w x = x.toNat :=
      pySliceStart_of_in_bounds _ _ hx (by omega)
    have hc1 : pySliceStop img.w (x + w) = (x + w).toNat :=
      pySliceStop_of_in_bounds _ _ (by omega) hxw
    have key : warpApply p img (x, y, w, hh) = warpRegion p img x y w hh := by
      unfold warpApply
      exact if_neg hsg
    rw [key]
    unfold warpRegion
    rw [hr0, hr1, hc0, hc1, if_pos (by constructor <;> omega)]
    rw [show (x + w).toNat - x.toNat = w.toNat by omega,
      show (y + hh).toNat - y.toNat = hh.toNat by omega]
    refine ⟨_, rfl, rfl, rfl, ?_⟩
    intro px py c h1 h2 h3 h4
    dsimp only
    rw [if_pos ⟨h1, h2, h3, h4⟩]

/-- Witness for the amended C3: the region branch on a concrete 4×4 image
with region `(1, 1, 2, 2)`, and one concrete map-formula instance. -/
theorem warp_displaced_resampling_witness :
    (warpMapX 4 20 5 1 1 =
      clipR 0 (((4 : ℕ) : ℝ) - 1)
        (((1 : ℕ) : ℝ) + Real.sin (((1 : ℕ) : ℝ) / 20) * 5) ∧
     warpMapY 4 20 5 1 1 =
      clipR 0 (((4 : ℕ) : ℝ) - 1)
        (((1 : ℕ) : ℝ) +
          Real.cos ((((1 : ℕ) : ℝ) + Real.sin (((1 : ℕ) : ℝ) / 20) * 5) / 20) * 5) ∧
     0 ≤ warpMapX 4 20 5 1 1 ∧ warpMapX 4 20 5 1 1 ≤ ((4 : ℕ) : ℝ) - 1 ∧
     0 ≤ warpMapY 4 20 5 1 1 ∧ warpMapY 4 20 5 1 1 ≤ ((4 : ℕ) : ℝ) - 1) ∧
    (∃ out, warpApply ⟨5, 20, "region"⟩ ⟨4, 4, fun _ _ _ => 9⟩ (1, 1, 2, 2) = some out ∧
      out.w = 4 ∧ out.h = 4 ∧
      ∀ (px py c : ℕ),
        (1 : ℤ).toNat ≤ px → px < ((1 : ℤ) + 2).toNat →
        (1 : ℤ).toNat ≤ py → py < ((1 : ℤ) + 2).toNat →
        out.pix px py c =
          roundByte (bilinear
            (subImg ⟨4, 4, fun _ _ _ => 9⟩ (1 : ℤ).toNat (1 : ℤ).toNat
              (2 : ℤ).toNat (2 : ℤ).toNat)
            (warpMapX (2 : ℤ).toNat 20 5 (px - (1 : ℤ).toNat) (py - (1 : ℤ).toNat))
            (warpMapY (2 : ℤ).toNat 20 5 (px - (1 : ℤ).toNat) (py - (1 : ℤ).toNat))
            c)) := by
  have h := warp_displaced_resampling ⟨5, 20, "region"⟩ ⟨4, 4, fun _ _ _ => 9⟩ 1 1 2 2
    (by norm_num) (by norm_num) (by norm_num) (by norm_num) (by norm_num) (by norm_num)
  exact ⟨h.1 4 4 20 5 1 1 (by norm_num) (by norm_num), h.2.2 rfl⟩

/-! ## Claim C7: region-scoped warp is a no-op outside the region -/

/-- Claim C7: for a region contained in the image, region-scoped warp leaves
every pixel strictly outside the region byte-identical to the input. -/
theorem warp_region_outside_unchanged (p : WarpParams) (img : PImg)
    (x y w hh : ℤ) (hs : p.scope = "region")
    (hx : 0 ≤ x) (hy : 0 ≤ y) (hw : 0 < w) (hhh : 0 < hh)
    (hxw : x + w ≤ img.w) (hyh : y + hh ≤ img.h) :
    ∃ out, warpApply p img (x, y, w, hh) = some out ∧
      out.w = img.w ∧ out.h = img.h ∧
      ∀ (px py c : ℕ),
        ((px : ℤ) < x ∨ x + w ≤ (px : ℤ) ∨ (py : ℤ) < y ∨ y + hh ≤ (py : ℤ)) →
        out.pix px py c = img.pix px py c := by
  have hsg : p.scope ≠ "global" := by rw [hs]; decide
  have hr0 : pySliceStart img.h y = y.toNat :=
    pySliceStart_of_in_bounds _ _ hy (by omega)
  have hr1 : pySliceStop img.h (y + hh) = (y + hh).toNat :=
    pySliceStop_of_in_bounds _ _ (by omega) hyh
  have hc0 : pySliceStart img.w x = x.toNat :=
    pySliceStart_of_in_bounds _ _ hx (by omega)
  have hc1 : pySliceStop img.w (x + w) = (x + w).toNat :=
    pySliceStop_of_in_bounds _ _ (by omega) hxw
  have key : warpApply p img (x, y, w, hh) = warpRegion p img x y w hh := by
    unfold warpApply
    exact if_neg hsg
  rw [key]
  unfold warpRegion
  rw [hr0, hr1, hc0, hc1, if_pos (by constructor <;> omega)]
  refine ⟨_, rfl, rfl, rfl, ?_⟩
  intro px py c hout
  simp only
  rw [if_neg (by omega)]

/-- Witness for C7: a 4×4 image warped over region `(1, 1, 2, 2)`. -/
theorem warp_region_outside_unchanged_witness :
    ∃ out, warpApply ⟨5, 20, "region"⟩ ⟨4, 4, fun _ _ _ => 9⟩ (1, 1, 2, 2) = some out ∧
      out.w = 4 ∧ out.h = 4 ∧
      ∀ (px py c : ℕ),
        ((px : ℤ) < 1 ∨ 1 + 2 ≤ (px : ℤ) ∨ (py : ℤ) < 1 ∨ 1 + 2 ≤ (py : ℤ)) →
        out.pix px py c = (fun _ _ _ => 9 : ℕ → ℕ → ℕ → ℕ) px py c :=
  warp_region_outside_unchanged ⟨5, 20, "region"⟩ ⟨4, 4, fun _ _ _ => 9⟩ 1 1 2 2 rfl
    (by norm_num) (by norm_num) (by norm_num) (by norm_num) (by norm_num) (by norm_num)

/-! ## Claim C2: the region passed to perturbations -/

/-- Counterexample for C2: with a 2×2 background and a 4×4 overlay the
pipeline passes the region `(-1, -1, 4, 4)` — negative coordinates and
extents exceeding the host dimensions — to every perturbation: the region
is not clipped before use. -/
theorem region_not_clipped :
    regionFor ⟨2, 2, fun _ _ _ => 0⟩ ⟨4, 4, fun _ _ _ => 0⟩ = (-1, -1, 4, 4) ∧
    ¬(0 ≤ (-1 : ℤ)) ∧ ¬((4 : ℤ) ≤ 2) :=
  ⟨by decide, by decide, by decide⟩

/-- Claim C2 (amended): the region handed to `apply` is the unclipped pair of
centered offset and overlay size; whenever the overlay fits inside the
background this region lies within the host image bounds (so clipping is
needed, and holds, only in that case). -/
theorem region_in_bounds_when_overlay_fits (bg ov : PImg)
    (hw : ov.w ≤ bg.w) (hh : ov.h ≤ bg.h) :
    0 ≤ (regionFor bg ov).1 ∧ 0 ≤ (regionFor bg ov).2.1 ∧
    (regionFor bg ov).1 + (regionFor bg ov).2.2.1 ≤ (bg.w : ℤ) ∧
    (regionFor bg ov).2.1 + (regionFor bg ov).2.2.2 ≤ (bg.h : ℤ) := by
  simp only [regionFor, calcCenterPos]
  rw [Int.fdiv_eq_ediv _ (by norm_num), Int.fdiv_eq_ediv _ (by norm_num)]
  have h1 : ((bg.w : ℤ) - (ov.w : ℤ)) / 2 ≤ (bg.w : ℤ) - (ov.w : ℤ) :=
    Int.ediv_le_self _ (by omega)
  have h2 : 0 ≤ ((bg.w : ℤ) - (ov.w : ℤ)) / 2 :=
    Int.ediv_nonneg (by omega) (by norm_num)
  have h3 : ((bg.h : ℤ) - (ov.h : ℤ)) / 2 ≤ (bg.h : ℤ) - (ov.h : ℤ) :=
    Int.ediv_le_self _ (by omega)
  have h4 : 0 ≤ ((bg.h : ℤ) - (ov.h : ℤ)) / 2 :=
    Int.ediv_nonneg (by omega) (by norm_num)
  exact ⟨h2, h4, by omega, by omega⟩

/-- Witness for the amended C2: a 2×2 overlay centered on a 4×4 background. -/
theorem region_in_bounds_when_overlay_fits_witness :
    0 ≤ (regionFor ⟨4, 4, fun _ _ _ => 0⟩ ⟨2, 2, fun _ _ _ => 0⟩).1 ∧
    0 ≤ (regionFor ⟨4, 4, fun _ _ _ => 0⟩ ⟨2, 2, fun _ _ _ => 0⟩).2.1 ∧
    (regionFor ⟨4, 4, fun _ _ _ => 0⟩ ⟨2, 2, fun _ _ _ => 0⟩).1 +
      (regionFor ⟨4, 4, fun _ _ _ => 0⟩ ⟨2, 2, fun _ _ _ => 0⟩).2.2.1 ≤ (4 : ℤ) ∧
    (regionFor ⟨4, 4, fun _ _ _ => 0⟩ ⟨2, 2, fun _ _ _ => 0⟩).2.1 +
      (regionFor ⟨4, 4, fun _ _ _ => 0⟩ ⟨2, 2, fun _ _ _ => 0⟩).2.2.2 ≤ (4 : ℤ) :=
  region_in_bounds_when_overlay_fits ⟨4, 4, fun _ _ _ => 0⟩ ⟨2, 2, fun _ _ _ => 0⟩
    (by norm_num) (by norm_num)

/-! ## Claim C8: output naming -/

theorem ofDigits_replicate_zero (k : ℕ) :
    Nat.ofDigits 10 (List.replicate k 0) = 0 := by
  induction k with
  | zero => rfl
  | succ k ih =>
    rw [List.replicate_succ, Nat.ofDigits_cons, ih]

theorem digitChar_val (d : ℕ) (h : d < 10) : (Nat.digitChar d).toNat - 48 = d := by
  interval_cases d <;> rfl

/-- Decoding inverts zero-padding: `unDigits` is a left inverse of `pad3`. -/
theorem unDigits_pad3 (n : ℕ) : unDigits (pad3 n) = n := by
  unfold unDigits pad3
  rw [List.reverse_append, List.reverse_replicate, List.map_append, List.map_replicate,
    show '0'.toNat - 48 = 0 from rfl, Nat.ofDigits_append, ofDigits_replicate_zero,
    Nat.mul_zero, Nat.add_zero]
  by_cases h0 : n = 0
  · subst h0
    decide
  · have hrepr : decRepr n = (Nat.digits 10 n).reverse.map Nat.digitChar := by
      unfold decRepr
      rw [if_neg h0]
    rw [hrepr, ← List.map_reverse, List.reverse_reverse, List.map_map]
    have hmap : (Nat.digits 10 n).map ((fun c => c.toNat - 48) ∘ Nat.digitChar) =
        (Nat.digits 10 n).map id := by
      apply List.map_congr_left
      intro d hd
      exact digitChar_val d (Nat.digits_lt_base (by norm_num) hd)
    rw [hmap, List.map_id, Nat.ofDigits_digits]

theorem pad3_inj (a b : ℕ) (h : pad3 a = pad3 b) : a = b := by
  rw [← unDigits_pad3 a, ← unDigits_pad3 b, h]

/-- Splitting at an underscore is unambiguous when neither left part contains
one. -/
theorem append_underscore_inj (l1 : List Char) :
    ∀ (l2 r1 r2 : List Char), '_' ∉ l1 → '_' ∉ l2 →
      l1 ++ '_' :: r1 = l2 ++ '_' :: r2 → l1 = l2 ∧ r1 = r2 := by
  induction l1 with
  | nil =>
    intro l2 r1 r2 h1 h2 h
    cases l2 with
    | nil => simpa using h
    | cons b bs =>
      exfalso
      simp only [List.nil_append, List.cons_append, List.cons.injEq] at h
      exact h2 (h.1 ▸ List.mem_cons_self b bs)
  | cons a as ih =>
    intro l2 r1 r2 h1 h2 h
    cases l2 with
    | nil =>
      exfalso
      simp only [List.nil_append, List.cons_append, List.cons.injEq] at h
      exact h1 (h.1.symm ▸ List.mem_cons_self a as)
    | cons b bs =>
      simp only [List.cons_append, List.cons.injEq] at h
      obtain ⟨hab, hrest⟩ := h
      have h1' : '_' ∉ as := fun hm => h1 (List.mem_cons_of_mem a hm)
      have h2' : '_' ∉ bs := fun hm => h2 (List.mem_cons_of_mem b hm)
      obtain ⟨he, hr⟩ := ih bs r1 r2 h1' h2' hrest
      exact ⟨by rw [hab, he], hr⟩

/-- Counterexample for C8: stems containing underscores collide —
`("a", "b_c", 0)` and `("a_b", "c", 0)` both produce `"a_b_c_000.png"`, so
the naming is not injective over the triple. -/
theorem fname_collision :
    fnameFor "a" "b_c" 0 = fnameFor "a_b" "c" 0 ∧
    ("a", "b_c", (0 : ℕ)) ≠ ("a_b", "c", (0 : ℕ)) :=
  ⟨by decide, by decide⟩

/-- Claim C8 (amended): the output filename is a pure function of
`(background stem, overlay stem, variant index)` — the definition reads
nothing else — and it is injective over triples whose stems contain no
underscore. -/
theorem fname_inj_of_no_underscore (b1 o1 b2 o2 : String) (i1 i2 : ℕ)
    (hb1 : '_' ∉ b1.data) (ho1 : '_' ∉ o1.data)
    (hb2 : '_' ∉ b2.data) (ho2 : '_' ∉ o2.data)
    (h : fnameFor b1 o1 i1 = fnameFor b2 o2 i2) :
    b1 = b2 ∧ o1 = o2 ∧ i1 = i2 := by
  have hd : (fnameFor b1 o1 i1).data = (fnameFor b2 o2 i2).data := by rw [h]
  unfold fnameFor at hd
  simp only [String.data_append] at hd
  have hdata : ∀ (b o : String) (i : ℕ),
      b.data ++ ("_" : String).data ++ o.data ++ ("_" : String).data ++ pad3 i ++
        (".png" : String).data =
      b.data ++ '_' :: (o.data ++ '_' :: (pad3 i ++ ['.', 'p', 'n', 'g'])) := by
    intro b o i
    simp
  rw [hdata, hdata] at hd
  obtain ⟨hb, hrest⟩ := append_underscore_inj b1.data _ _ _ hb1 hb2 hd
  obtain ⟨ho, htail⟩ := append_underscore_inj o1.data _ _ _ ho1 ho2 hrest
  have hpad : pad3 i1 = pad3 i2 := (List.append_left_inj _).mp htail
  exact ⟨String.ext hb, String.ext ho, pad3_inj _ _ hpad⟩

/-- Witness for the amended C8 on underscore-free stems. -/
theorem fname_inj_of_no_underscore_witness :
    "bg" = "bg" ∧ "ov" = "ov" ∧ (7 : ℕ) = 7 :=
  fname_inj_of_no_underscore "bg" "ov" "bg" "ov" 7 7
    (by decide) (by decide) (by decide) (by decide) rfl

/-! ## Claim C1: determinism of `run` -/

/-- Claim C1: two `run` invocations with the same non-`None` seed, the same
background and overlay enumerations, the same chain and the same variant
count produce identical output — every corresponding image is
pixel-identical and every metadata record field-identical — regardless of
the ambient random state each process started with. -/
theorem run_deterministic (reg : List (String × PertImpl)) (c1 c2 : GenConfig)
    (amb1 amb2 : ℕ) (s : ℤ)
    (hseed1 : c1.seed = some s) (hseed2 : c2.seed = some s)
    (hbgs : c1.bgs = c2.bgs) (hovs : c1.ovs = c2.ovs) (hchain : c1.chain = c2.chain)
    (hn : c1.nVariants = c2.nVariants) (hm : c1.saveMeta = c2.saveMeta) :
    run reg c1 amb1 = run reg c2 amb2 := by
  obtain ⟨b1, o1, ch1, sd1, n1, m1⟩ := c1
  obtain ⟨b2, o2, ch2, sd2, n2, m2⟩ := c2
  simp only at hseed1 hseed2 hbgs hovs hchain hn hm
  subst hbgs hovs hchain hn hm hseed1 hseed2
  rfl

/-- Witness for C1: the same one-pair seeded configuration run from two
different ambient states. -/
theorem run_deterministic_witness :
    run [] ⟨[("b", ⟨1, 1, fun _ _ _ => 0⟩)], [("o", ⟨1, 1, fun _ _ _ => 0⟩)],
        [], some 7, 1, true⟩ 0 =
    run [] ⟨[("b", ⟨1, 1, fun _ _ _ => 0⟩)], [("o", ⟨1, 1, fun _ _ _ => 0⟩)],
        [], some 7, 1, true⟩ 99 :=
  run_deterministic [] _ _ 0 99 7 rfl rfl rfl rfl rfl rfl rfl

/-! ## Claim C6: unknown perturbation aborts the run -/

theorem applyChain_unknown (reg : List (String × PertImpl)) (n : String) :
    ∀ (chain : List PertConf), firstUnknown reg chain = some n →
      ∀ (img : PImg) (region : ℤ × ℤ × ℤ × ℤ) (st : ℕ),
        applyChain reg chain img region st =
          Except.error ("Unknown perturbation: " ++ n) := by
  intro chain
  induction chain with
  | nil => intro h; simp [firstUnknown] at h
  | cons conf rest ih =>
    intro h img region st
    unfold applyChain
    cases hl : lookupImpl reg conf.name with
    | none =>
      unfold firstUnknown at h
      rw [hl] at h
      simp only [Option.some.injEq] at h
      rw [h]
    | some impl =>
      unfold firstUnknown at h
      rw [hl] at h
      dsimp only at h ⊢
      rw [ih h]

theorem runPair_error (reg : List (String × PertImpl)) (chain : List PertConf)
    (bgStem ovStem : String) (bg ov : PImg) (seed : Option ℤ) (sm : Bool)
    (k i st : ℕ) (e : String)
    (h : applyChain reg chain
      (composite bg ov (calcCenterPos bg ov).1 (calcCenterPos bg ov).2)
      (regionFor bg ov) st = Except.error e) :
    runPair reg chain bgStem ovStem bg ov seed sm (k + 1) i st =
      ([], [], st, some e) := by
  unfold runPair
  rw [h]

/-- Claim C6: when the chain references an unregistered name, `run` raises
`ValueError("Unknown perturbation: <name>")` naming the first such entry,
and no image file at all is written — in particular none for the failing
`(background, overlay, variant)` configuration. -/
theorem run_unknown_perturbation_aborts (reg : List (String × PertImpl))
    (cfg : GenConfig) (amb : ℕ) (n : String)
    (hb : cfg.bgs ≠ []) (ho : cfg.ovs ≠ []) (hn : 0 < cfg.nVariants)
    (hu : firstUnknown reg cfg.chain = some n) :
    run reg cfg amb = ⟨[], [], some ("Unknown perturbation: " ++ n)⟩ := by
  obtain ⟨bgs, ovs, chain, seed, nv, sm⟩ := cfg
  simp only at hb ho hn hu
  cases bgs with
  | nil => exact absurd rfl hb
  | cons bpair bgs' =>
  cases ovs with
  | nil => exact absurd rfl ho
  | cons opair ovs' =>
  cases nv with
  | zero => exact absurd hn (by norm_num)
  | succ m =>
  obtain ⟨bgStem, bg⟩ := bpair
  obtain ⟨ovStem, ov⟩ := opair
  have hovs : ∀ st : ℕ, runOvs reg chain bgStem bg ((ovStem, ov) :: ovs') seed sm
      st (m + 1) = ([], [], st, some ("Unknown perturbation: " ++ n)) := by
    intro st
    have hpair := runPair_error reg chain bgStem ovStem bg ov seed sm m 0 st
      ("Unknown perturbation: " ++ n) (applyChain_unknown reg n chain hu _ _ _)
    unfold runOvs
    dsimp only
    rw [hpair]
  have hbgs : ∀ st : ℕ, runBgs reg chain ((bgStem, bg) :: bgs') ((ovStem, ov) :: ovs')
      seed sm st (m + 1) = ([], [], st, some ("Unknown perturbation: " ++ n)) := by
    intro st
    unfold runBgs
    dsimp only
    rw [hovs st]
  unfold run
  dsimp only
  rw [hbgs]
  simp

/-- Witness for C6: a chain naming `warp` against an empty registry. -/
theorem run_unknown_perturbation_aborts_witness :
    run [] ⟨[("b", ⟨1, 1, fun _ _ _ => 0⟩)], [("o", ⟨1, 1, fun _ _ _ => 0⟩)],
        [⟨"warp", []⟩], some 0, 1, true⟩ 0 =
      ⟨[], [], some ("Unknown perturbation: " ++ "warp")⟩ :=
  run_unknown_perturbation_aborts [] _ 0 "warp"
    (by simp) (by simp) (by norm_num) rfl

end Plate
